import Mathlib

/-!
Verification of the scraping-and-answer-agent repository.

The development shallowly embeds the two source files:
* `main.py` — the two-stage research pipeline (research_agent, answer_drafter_agent,
  the LangGraph workflow, run_research_system);
* `app.py`  — the Streamlit presentation helpers (strip_markdown, compact_citations,
  the snippet clamp).

Python strings are modelled as Lean `String` (a list of unicode code points, matching
Python's `str` as a sequence of code points); slicing `s[:n]` becomes taking the first
n characters.  External calls (the Tavily search and the LLM invoke) are modelled as
explicit `Except`-valued behaviours passed to the agent functions: `.error e` stands
for the call raising an exception whose `str()` is `e`.
-/

/-- Python whitespace test for the ASCII range: the characters matched by `str.strip`,
`str.split` and the regex class for whitespace are space, tab, newline, carriage
return, vertical tab and form feed.  (Exotic non-ASCII unicode whitespace is not
modelled; no claim involves it.) -/
def pyIsSpace (c : Char) : Bool :=
  c = ' ' || c = '\t' || c = '\n' || c = '\r' || c = '\x0b' || c = '\x0c'

/-- Python `s[:n]` on a string: the first `n` code points. -/
def pySlice (s : String) (n : Nat) : String := ⟨s.data.take n⟩

/-- Python `str.strip()` on a list of characters: remove leading and trailing
whitespace. -/
def pyStrip (s : List Char) : List Char :=
  ((s.dropWhile pyIsSpace).reverse.dropWhile pyIsSpace).reverse

/-- Python `str.rstrip()` on a list of characters: remove trailing whitespace. -/
def pyRstrip (s : List Char) : List Char :=
  (s.reverse.dropWhile pyIsSpace).reverse

/-- Whether a list of characters ends with a newline (used to track the
start-of-line position of a MULTILINE regex scan after consuming a match). -/
def endsWithNewline (l : List Char) : Bool :=
  match l.getLast? with
  | some c => c = '\n'
  | none => false

/-!  ## The data model of `main.py`  -/

/-- A `langchain_core` message: the pipeline log stores `HumanMessage` and
`AIMessage` values, each carrying a content string. -/
inductive Message where
  | human (content : String)
  | ai (content : String)
deriving DecidableEq

/-- One research item, as built by `research_agent` from a Tavily result:
`{"url": ..., "title": ..., "content": ...[:1000], "source": "web"}`. -/
structure ResearchItem where
  url : String
  title : String
  content : String
  source : String
deriving DecidableEq

/-- The `ResearchState` TypedDict threaded through the LangGraph workflow. -/
structure ResearchState where
  query : String
  research_data : List ResearchItem
  drafted_answer : String
  messages : List Message
deriving DecidableEq

/-- One raw result dict of the Tavily search response.  A field is `none` when the
key is missing from the dict (so that subscripting raises KeyError); for `content`,
`none` also covers a present-but-`None` value, which raises TypeError when sliced.
Either way the per-item extraction in `research_agent` raises. -/
structure RawResult where
  url : Option String
  title : Option String
  content : Option String
deriving DecidableEq

/-- Extraction of one item inside the list comprehension of `research_agent`:
`{"url": result["url"], "title": result["title"], "content": result["content"][:1000],
"source": "web"}`.  A missing field raises; the error string is the `str()` of the
KeyError raised by the corresponding subscript. -/
def extractItem (r : RawResult) : Except String ResearchItem :=
  match r.url with
  | none => .error "'url'"
  | some u =>
    match r.title with
    | none => .error "'title'"
    | some t =>
      match r.content with
      | none => .error "'content'"
      | some c => .ok { url := u, title := t, content := pySlice c 1000, source := "web" }

/-- The list comprehension of `research_agent`: items are extracted left to right and
the first exception aborts the whole comprehension. -/
def extractAll : List RawResult → Except String (List ResearchItem)
  | [] => .ok []
  | r :: rs =>
    match extractItem r with
    | .error e => .error e
    | .ok item =>
      match extractAll rs with
      | .error e => .error e
      | .ok items => .ok (item :: items)

/-- `research_agent` from `main.py`.  The behaviour of the Tavily call
`tavily_client.search(query=..., max_results=5, search_depth="advanced",
include_raw_content=True)` is passed in as `search`: `.ok rs` is a successful
response whose `"results"` entry is `rs`, and `.error e` is a raised exception.
Any exception inside the `try` block (from the search call or from the extraction
comprehension) lands in the `except` branch, which substitutes an empty research
set and logs the error.  `state.get("drafted_answer", "")` is `state.drafted_answer`
since the state record is total. -/
def research_agent (search : Except String (List RawResult)) (state : ResearchState) :
    ResearchState :=
  match search with
  | .ok rs =>
    match extractAll rs with
    | .ok research_data =>
      { research_data := research_data
        messages := state.messages ++
          [.ai ("Collected " ++ toString research_data.length ++ " research items.")]
        query := state.query
        drafted_answer := state.drafted_answer }
    | .error e =>
      { research_data := []
        messages := state.messages ++ [.ai ("Error in research: " ++ e)]
        query := state.query
        drafted_answer := state.drafted_answer }
  | .error e =>
    { research_data := []
      messages := state.messages ++ [.ai ("Error in research: " ++ e)]
      query := state.query
      drafted_answer := state.drafted_answer }

/-- The `research_data_str` formatting inside `answer_drafter_agent`:
`"\n".join("Title: ...\nURL: ...\nContent: ..." for each item)`, or the sentinel
`"No research data available."` when the research set is empty. -/
def research_data_str (items : List ResearchItem) : String :=
  if items.isEmpty then "No research data available."
  else
    String.intercalate "\n"
      (items.map fun item =>
        "Title: " ++ item.title ++ "\nURL: " ++ item.url ++ "\nContent: " ++ item.content)

/-- `max_retries = 3` in `answer_drafter_agent`. -/
def max_retries : Nat := 3

/-- The retry loop `for attempt in range(max_retries)` of `answer_drafter_agent`.
`invoke n` is the behaviour of `chain.invoke(...)` on attempt index `n` (`.ok c`
returns a response whose `content` is `c`; `.error e` raises).  `fuel` counts the
remaining loop iterations, so a call at attempt index `a` carries
`fuel = max_retries - a`; the guard `attempt < max_retries - 1` of the source is
then exactly `0 < fuel - 1`, i.e. `1 ≤ fuel'` for `fuel = fuel' + 1`.
`time.sleep(2 ** attempt)` is modelled by recording the slept duration; the result
pairs the returned state with the list of sleep durations, in order.  `none` models
falling off the loop (Python would return `None`), which cannot happen for
`fuel ≥ 1`. -/
def draftLoop (invoke : Nat → Except String String) (state : ResearchState) :
    Nat → Nat → Option (ResearchState × List Nat)
  | _, 0 => none
  | attempt, fuel + 1 =>
    match invoke attempt with
    | .ok content =>
      some ({ drafted_answer := content
              messages := state.messages ++ [.ai "Drafted answer completed."]
              query := state.query
              research_data := state.research_data }, [])
    | .error e =>
      if 0 < fuel then
        match draftLoop invoke state (attempt + 1) fuel with
        | some (st, sleeps) => some (st, 2 ^ attempt :: sleeps)
        | none => none
      else
        some ({ drafted_answer := "Failed to draft answer due to API error."
                messages := state.messages ++ [.ai ("Error in drafting: " ++ e)]
                query := state.query
                research_data := state.research_data }, [])

/-- `answer_drafter_agent` from `main.py`: run the retry loop from attempt 0 with
`max_retries` iterations available. -/
def answer_drafter_agent (invoke : Nat → Except String String) (state : ResearchState) :
    Option (ResearchState × List Nat) :=
  draftLoop invoke state 0 max_retries

/-- The compiled LangGraph workflow: entry point `research_agent`, then the
unconditional edge to `answer_drafter_agent`, then END. -/
def pipeline (search : Except String (List RawResult)) (invoke : Nat → Except String String)
    (state : ResearchState) : Option (ResearchState × List Nat) :=
  answer_drafter_agent invoke (research_agent search state)

/-- `run_research_system` from `main.py`: build the initial state and invoke the
compiled graph. -/
def run_research_system (search : Except String (List RawResult))
    (invoke : Nat → Except String String) (query : String) :
    Option (ResearchState × List Nat) :=
  pipeline search invoke
    { query := query, research_data := [], drafted_answer := "", messages := [.human query] }

/-!  ## The text transforms of `app.py`

Each `re.sub` pass of `strip_markdown`, and the `finditer` scan of
`compact_citations`, is embedded as a left-to-right character scanner: at every
position the scanner tries to match the pattern; on a match it emits the
replacement and resumes after the matched text (replacements are not rescanned,
exactly like `re.sub`/`finditer`); otherwise it emits the character and moves on.
Each matcher below is the deterministic equivalent of its pattern's backtracking
search, derived case by case in the comments.  The scanners recurse on a fuel
argument; every pattern here matches at least one character, so `fuel = length of
the input` always suffices and the fuel-exhausted case is never reached.
-/

/-- One `re.sub` pass for an unanchored pattern.  `M s` returns
`(replacement, rest after the match)` when the pattern matches at the start of
`s`. -/
def subScan (M : List Char → Option (List Char × List Char)) :
    Nat → List Char → List Char
  | 0, s => s
  | _ + 1, [] => []
  | fuel + 1, c :: cs =>
    match M (c :: cs) with
    | some (r, rest) => r ++ subScan M fuel rest
    | none => c :: subScan M fuel cs

/-- One `re.sub` pass for a `^`-anchored MULTILINE pattern.  The Boolean flag is
true exactly at the start of the string and right after a newline; the matcher is
only tried there, and returns `(replacement, last consumed char was a newline,
rest)`. -/
def subScanML (M : List Char → Option (List Char × Bool × List Char)) :
    Nat → Bool → List Char → List Char
  | 0, _, s => s
  | _ + 1, _, [] => []
  | fuel + 1, atStart, c :: cs =>
    match (if atStart then M (c :: cs) else none) with
    | some (r, nl, rest) => r ++ subScanML M fuel nl rest
    | none => c :: subScanML M fuel (c = '\n') cs

/-- Matcher for the image pass `!\[([^\]]*)\]\([^\)]*\)` → alt text.  The two
character classes exclude their closing bracket, so the greedy runs are maximal
runs with no backtracking alternative. -/
def matchImage (s : List Char) : Option (List Char × List Char) :=
  match s with
  | c1 :: c2 :: s1 =>
    if c1 = '!' ∧ c2 = '[' then
      let alt := s1.takeWhile (fun c => c ≠ ']')
      match s1.dropWhile (fun c => c ≠ ']') with
      | c3 :: c4 :: s2 =>
        if c3 = ']' ∧ c4 = '(' then
          match s2.dropWhile (fun c => c ≠ ')') with
          | c5 :: s3 => if c5 = ')' then some (alt, s3) else none
          | [] => none
        else none
      | _ => none
    else none
  | _ => none

/-- Matcher for the link pass `\[([^\]]+)\]\([^\)]*\)` → link text (the text
group must be nonempty). -/
def matchLink (s : List Char) : Option (List Char × List Char) :=
  match s with
  | c1 :: s1 =>
    if c1 = '[' then
      let txt := s1.takeWhile (fun c => c ≠ ']')
      if txt.isEmpty then none
      else
        match s1.dropWhile (fun c => c ≠ ']') with
        | c3 :: c4 :: s2 =>
          if c3 = ']' ∧ c4 = '(' then
            match s2.dropWhile (fun c => c ≠ ')') with
            | c5 :: s3 => if c5 = ')' then some (txt, s3) else none
            | [] => none
          else none
        | _ => none
    else none
  | [] => none


/-- Matcher for the heading pass `^\s{0,3}#{1,6}\s*` → removed.  Backtracking
analysis: the whitespace class contains no hash sign, so the quantifier
`\s{0,3}` can only succeed by consuming the whole leading whitespace run, which
must therefore have at most 3 characters and be followed directly by a hash;
`#{1,6}` greedily takes up to 6 hashes and the trailing `\s*` always succeeds
greedily. -/
def matchHeading (s : List Char) : Option (List Char × Bool × List Char) :=
  let w := s.takeWhile pyIsSpace
  if w.length ≤ 3 then
    match s.dropWhile pyIsSpace with
    | c :: s1 =>
      if c = '#' then
        let hs := (c :: s1).takeWhile (fun x => x = '#')
        let s2 := (c :: s1).drop (min hs.length 6)
        let w2 := s2.takeWhile pyIsSpace
        some ([], endsWithNewline w2, s2.dropWhile pyIsSpace)
      else none
    | [] => none
  else none

/-- Matcher for the blockquote pass `^\s{0,3}>\s?` → removed.  As for headings,
`\s{0,3}` must consume the entire leading whitespace run; `\s?` greedily takes
one following whitespace character when present. -/
def matchBlockquote (s : List Char) : Option (List Char × Bool × List Char) :=
  let w := s.takeWhile pyIsSpace
  if w.length ≤ 3 then
    match s.dropWhile pyIsSpace with
    | c :: s1 =>
      if c = '>' then
        match s1 with
        | c2 :: s2 =>
          if pyIsSpace c2 then some ([], c2 = '\n', s2) else some ([], false, s1)
        | [] => some ([], false, [])
      else none
    | [] => none
  else none

/-- Matcher for the list-item pass `^\s*([-*+]|\d+\.)\s+` → removed.  `\s*`
must consume the whole leading whitespace run (the marker characters are not
whitespace); the first alternative is a single bullet character, the second a
maximal digit run followed by a dot (taking fewer digits leaves a digit where
the dot is required, so only the maximal run can succeed); both require at
least one whitespace character afterwards, and `\s+` is greedy. -/
def matchListItem (s : List Char) : Option (List Char × Bool × List Char) :=
  match s.dropWhile pyIsSpace with
  | c :: s1 =>
    if c = '-' || c = '*' || c = '+' then
      let w2 := s1.takeWhile pyIsSpace
      if w2.isEmpty then none
      else some ([], endsWithNewline w2, s1.dropWhile pyIsSpace)
    else
      let ds := (c :: s1).takeWhile Char.isDigit
      if ds.isEmpty then none
      else
        match (c :: s1).drop ds.length with
        | c2 :: s2 =>
          if c2 = '.' then
            let w2 := s2.takeWhile pyIsSpace
            if w2.isEmpty then none
            else some ([], endsWithNewline w2, s2.dropWhile pyIsSpace)
          else none
        | [] => none
  | [] => none

/-- Matcher for the code-span pass `` `([^`]*)` `` → inner text. -/
def matchCodeSpan (s : List Char) : Option (List Char × List Char) :=
  match s with
  | c1 :: s1 =>
    if c1 = '`' then
      let inner := s1.takeWhile (fun c => c ≠ '`')
      match s1.dropWhile (fun c => c ≠ '`') with
      | c2 :: s2 => if c2 = '`' then some (inner, s2) else none
      | [] => none
    else none
  | [] => none

/-- The lazy middle of an emphasis pattern: `(.*?)` followed by the closing
delimiter `d`.  Laziness means the first position where `d` occurs wins; `.`
does not match a newline, so the search stops at one. -/
def findClose (d : List Char) : List Char → Option (List Char × List Char)
  | [] => if d.isPrefixOf ([] : List Char) then some ([], []) else none
  | c :: cs =>
    if d.isPrefixOf (c :: cs) then some ([], (c :: cs).drop d.length)
    else if c = '\n' then none
    else
      match findClose d cs with
      | some (m, r) => some (c :: m, r)
      | none => none

/-- Matcher for the bold pass `(\*\*|__)(.*?)\1` → inner text.  The two
alternatives start with different characters, so at most one opening delimiter
can apply at a position. -/
def matchEmph2 (s : List Char) : Option (List Char × List Char) :=
  if ['*', '*'].isPrefixOf s then findClose ['*', '*'] (s.drop 2)
  else if ['_', '_'].isPrefixOf s then findClose ['_', '_'] (s.drop 2)
  else none

/-- Matcher for the italic pass `(\*|_)(.*?)\1` → inner text. -/
def matchEmph1 (s : List Char) : Option (List Char × List Char) :=
  if ['*'].isPrefixOf s then findClose ['*'] (s.drop 1)
  else if ['_'].isPrefixOf s then findClose ['_'] (s.drop 1)
  else none

/-- Matcher for one alternative `c{3,}` of the horizontal-rule pass
`^(?:-{3,}|_{3,}|\*{3,})\s*$` → removed.  After the rule run, `\s*$` succeeds
either by consuming all remaining whitespace up to the end of the string, or —
when other text follows — by stopping just before the last newline inside the
whitespace run (`$` matches before a newline in MULTILINE mode, and the greedy
`\s*` backtracks to the longest prefix followed by a newline). -/
def matchHRuleWith (ch : Char) (s : List Char) : Option (List Char × Bool × List Char) :=
  let run := s.takeWhile (fun c => c = ch)
  if run.length < 3 then none
  else
    let t := s.drop run.length
    let w := t.takeWhile pyIsSpace
    let t2 := t.drop w.length
    if t2.isEmpty then some ([], endsWithNewline w, [])
    else
      let tailNoNl := w.reverse.takeWhile (fun c => c ≠ '\n')
      if tailNoNl.length = w.length then none
      else
        let keep := w.length - tailNoNl.length - 1
        some ([], endsWithNewline (w.take keep), w.drop keep ++ t2)

/-- Matcher for the horizontal-rule pass: the three alternatives start with
different characters, so they are tried independently. -/
def matchHRule (s : List Char) : Option (List Char × Bool × List Char) :=
  match matchHRuleWith '-' s with
  | some r => some r
  | none =>
    match matchHRuleWith '_' s with
    | some r => some r
    | none => matchHRuleWith '*' s

/-- `strip_markdown` from `app.py`: the eight `re.sub` passes in source order
(images, links, headings, blockquotes, list items, code spans, bold/italic
double-delimiter emphasis, single-delimiter emphasis, horizontal rules). -/
def strip_markdown (text : String) : String :=
  let t1 := subScan matchImage text.data.length text.data
  let t2 := subScan matchLink t1.length t1
  let t3 := subScanML matchHeading t2.length true t2
  let t4 := subScanML matchBlockquote t3.length true t3
  let t5 := subScanML matchListItem t4.length true t4
  let t6 := subScan matchCodeSpan t5.length t5
  let t7 := subScan matchEmph2 t6.length t6
  let t8 := subScan matchEmph1 t7.length t7
  let t9 := subScanML matchHRule t8.length true t8
  ⟨t9⟩

/-!  ## `compact_citations` from `app.py`  -/

/-- Case-insensitive literal match ('pat' is given in lowercase); returns the rest
of the input on success. -/
def matchCI (pat : List Char) : List Char → Option (List Char)
  | s =>
    match pat, s with
    | [], rest => some rest
    | _ :: _, [] => none
    | p :: ps, c :: cs => if c.toLower = p then matchCI ps cs else none

/-- Matcher for the citation pattern
`\[(?:Source|Sources?)\s*:\s*([^\]]+)\]` (IGNORECASE), returning the captured
group and the rest after the match.  Backtracking analysis: after the literal
`Source`, the first alternative needs `\s*:` and the second needs a plural `s`
first; a whitespace character or a colon is never an `s`, so the two
alternatives are mutually exclusive and the optional plural `s` is consumed
exactly when present.  After the colon, `\s*` greedily takes the whitespace
run and `([^\]]+)\]` takes the maximal nonempty run up to the next `]`; when
that run is empty (a `]` directly follows the whitespace), the greedy `\s*`
backtracks one character, making the group the last whitespace character. -/
def tryMatch (s : List Char) : Option (List Char × List Char) :=
  match s with
  | c0 :: s1 =>
    if c0 = '[' then
      match matchCI ['s', 'o', 'u', 'r', 'c', 'e'] s1 with
      | none => none
      | some s2 =>
        let s3 := match s2 with
                  | c :: cs => if c.toLower = 's' then cs else s2
                  | [] => s2
        match s3.dropWhile pyIsSpace with
        | c4 :: s5 =>
          if c4 = ':' then
            let w := s5.takeWhile pyIsSpace
            let s6 := s5.dropWhile pyIsSpace
            let g := s6.takeWhile (fun c => c ≠ ']')
            match s6.dropWhile (fun c => c ≠ ']') with
            | c7 :: s8 =>
              if c7 = ']' then
                if g.isEmpty then
                  match w.getLast? with
                  | some cw => some ([cw], s8)
                  | none => none
                else some (g, s8)
              else none
            | [] => none
          else none
        | [] => none
    else none
  | [] => none

/-- Python `re.split(r"[;,]", raw)`: split at every semicolon or comma, keeping
empty pieces. -/
def splitOnSep : List Char → List (List Char)
  | [] => [[]]
  | c :: cs =>
    if c = ';' || c = ',' then [] :: splitOnSep cs
    else
      match splitOnSep cs with
      | g :: gs => (c :: g) :: gs
      | [] => [[c]]

/-- The URL list of one citation marker:
`[u.strip() for u in re.split(r"[;,]", raw) if u.strip()]`. -/
def urlsOf (raw : List Char) : List (List Char) :=
  ((splitOnSep raw).map pyStrip).filter (fun u => ¬ u.isEmpty)

/-- Lookup in the `seen` dict, keyed by the URL tuple of a marker. -/
def lookupKey (k : List (List Char)) : List (List (List Char) × Nat) → Option Nat
  | [] => none
  | (k2, i) :: rest => if k = k2 then some i else lookupKey k rest

/-- The attribute escaping of `compact_citations`: `.replace('"', '&quot;')`. -/
def escQuote : List Char → List Char
  | [] => []
  | c :: cs =>
    if c = '"' then '&' :: 'q' :: 'u' :: 'o' :: 't' :: ';' :: escQuote cs
    else c :: escQuote cs

/-- The anchor text substituted for one citation marker:
`f'<a href="{esc_first}" target="_blank" title="{esc_title}">[{idx}]</a>'`,
where `first` is the first URL (or `#` when the URL list is empty) and `title`
is the newline-joined URL list (or `No links provided`). -/
def anchorFor (urls : List (List Char)) (idx : Nat) : List Char :=
  let first := match urls with
               | [] => "#".data
               | u :: _ => u
  let title := match urls with
               | [] => "No links provided".data
               | _ :: _ => List.intercalate ['\n'] urls
  "<a href=\"".data ++ escQuote first ++ "\" target=\"_blank\" title=\"".data ++
    escQuote title ++ "\">[".data ++ (toString idx).data ++ "]</a>".data

/-- The `finditer` loop of `compact_citations`: scan left to right; text outside
markers is passed through unchanged; each marker is replaced by its anchor.
`counter` and `seen` are the dict-based index assignment of the source: a
marker whose URL tuple was seen before reuses its index, otherwise the counter
is incremented and recorded.  Besides the output text, the scan returns the
trace of `(URL tuple, index)` assignments, one per marker in order.  Each match
consumes at least one character, so `fuel = length of the input` suffices. -/
def compactScan : Nat → Nat → List (List (List Char) × Nat) → List Char →
    List Char × List (List (List Char) × Nat)
  | 0, _, _, s => (s, [])
  | _ + 1, _, _, [] => ([], [])
  | fuel + 1, counter, seen, c :: cs =>
    match tryMatch (c :: cs) with
    | none =>
      let p := compactScan fuel counter seen cs
      (c :: p.1, p.2)
    | some (g, rest) =>
      let urls := urlsOf g
      match lookupKey urls seen with
      | some i =>
        let p := compactScan fuel counter seen rest
        (anchorFor urls i ++ p.1, (urls, i) :: p.2)
      | none =>
        let p := compactScan fuel (counter + 1) ((urls, counter + 1) :: seen) rest
        (anchorFor urls (counter + 1) ++ p.1, (urls, counter + 1) :: p.2)

/-- `compact_citations` from `app.py`. -/
def compact_citations (text : String) : String :=
  ⟨(compactScan text.data.length 0 [] text.data).1⟩

/-- The per-marker index assignments performed by one `compact_citations` pass,
in marker order. -/
def citationTrace (text : String) : List (List (List Char) × Nat) :=
  (compactScan text.data.length 0 [] text.data).2

/-- Whether some position of the text starts a match of the citation pattern,
i.e. whether the text still contains a raw citation marker. -/
def hasMarker : List Char → Bool
  | [] => false
  | c :: cs => (tryMatch (c :: cs)).isSome || hasMarker cs

/-!  ## The snippet clamp of the render loop in `app.py`  -/

/-- `SNIPPET_MAX_CHARS = 450`. -/
def SNIPPET_MAX_CHARS : Nat := 450

/-- Python `str.split()` with no arguments: split at whitespace characters,
keeping empty pieces for now (they are filtered in `pySplitWs`). -/
def splitWsRaw : List Char → List (List Char)
  | [] => [[]]
  | c :: cs =>
    if pyIsSpace c then [] :: splitWsRaw cs
    else
      match splitWsRaw cs with
      | g :: gs => (c :: g) :: gs
      | [] => [[c]]

/-- Python `str.split()`: the maximal nonempty runs of non-whitespace
characters. -/
def pySplitWs (s : List Char) : List (List Char) :=
  (splitWsRaw s).filter (fun g => ¬ g.isEmpty)

/-- `" ".join(snippet.split())`: collapse all whitespace runs to single spaces
and trim the ends. -/
def collapseWs (s : List Char) : List Char :=
  List.intercalate [' '] (pySplitWs s)

/-- The snippet rendering of the result loop in `app.py`:
`snippet = strip_markdown(content); snippet = " ".join(snippet.split());
if len(snippet) > SNIPPET_MAX_CHARS: snippet = snippet[:SNIPPET_MAX_CHARS].rstrip() + "…"`. -/
def displaySnippet (content : String) : String :=
  let s1 := (strip_markdown content).data
  let s2 := collapseWs s1
  if s2.length > SNIPPET_MAX_CHARS then ⟨pyRstrip (s2.take SNIPPET_MAX_CHARS) ++ "…".data⟩
  else ⟨s2⟩

/-!  ## Helper lemmas  -/

/-- The retry loop returns a state whenever at least one attempt remains: the body
of `for attempt in range(max_retries)` returns on success and on the final
failure, and recurses otherwise. -/
theorem draftLoop_total (invoke : Nat → Except String String) (st : ResearchState) :
    ∀ fuel attempt, 0 < fuel → (draftLoop invoke st attempt fuel).isSome := by
  intro fuel
  induction fuel with
  | zero => intro attempt h; exact absurd h (by omega)
  | succ n ih =>
    intro attempt _
    cases h : invoke attempt with
    | ok c => simp [draftLoop, h]
    | error e =>
      by_cases hn : 0 < n
      · have hsome := ih (attempt + 1) hn
        cases hrec : draftLoop invoke st (attempt + 1) n with
        | none => rw [hrec] at hsome; simp at hsome
        | some r => simp [draftLoop, h, hn, hrec]
      · have hn0 : n = 0 := by omega
        subst hn0
        simp [draftLoop, h]

/-!  ## Claims about the drafting stage  -/

/-- C1: when all three invoke attempts raise, `answer_drafter_agent` returns (does
not raise) a state whose drafted answer is exactly the literal fallback string,
whose query and research data are those of the input state, and whose message log
gains exactly one error entry (for the last exception). -/
theorem C1_drafting_fallback (invoke : Nat → Except String String) (st : ResearchState)
    (e0 e1 e2 : String)
    (h0 : invoke 0 = .error e0) (h1 : invoke 1 = .error e1) (h2 : invoke 2 = .error e2) :
    answer_drafter_agent invoke st =
      some ({ query := st.query
              research_data := st.research_data
              drafted_answer := "Failed to draft answer due to API error."
              messages := st.messages ++ [.ai ("Error in drafting: " ++ e2)] }, [1, 2]) := by
  simp [answer_drafter_agent, max_retries, draftLoop, h0, h1, h2]

/-- Witness for C1 at a concrete state and a drafting client that always raises. -/
theorem C1_drafting_fallback_witness :
    answer_drafter_agent (fun _ => .error "boom")
        { query := "q", research_data := [], drafted_answer := "", messages := [] } =
      some ({ query := "q"
              research_data := []
              drafted_answer := "Failed to draft answer due to API error."
              messages := [.ai ("Error in drafting: " ++ "boom")] }, [1, 2]) :=
  C1_drafting_fallback (fun _ => .error "boom") _ "boom" "boom" "boom" rfl rfl rfl

/-- C2: when the first two attempts raise and the third succeeds,
`answer_drafter_agent` returns the successful content as the drafted answer and the
back-off sleeps performed are exactly 2^0 = 1 second and then 2^1 = 2 seconds. -/
theorem C2_retry_backoff (invoke : Nat → Except String String) (st : ResearchState)
    (e0 e1 c : String)
    (h0 : invoke 0 = .error e0) (h1 : invoke 1 = .error e1) (h2 : invoke 2 = .ok c) :
    answer_drafter_agent invoke st =
      some ({ query := st.query
              research_data := st.research_data
              drafted_answer := c
              messages := st.messages ++ [.ai "Drafted answer completed."] }, [1, 2]) := by
  simp [answer_drafter_agent, max_retries, draftLoop, h0, h1, h2]

/-- Witness for C2: two transient failures followed by success. -/
theorem C2_retry_backoff_witness :
    answer_drafter_agent (fun n => if n < 2 then .error "transient" else .ok "fine")
        { query := "q", research_data := [], drafted_answer := "", messages := [] } =
      some ({ query := "q"
              research_data := []
              drafted_answer := "fine"
              messages := [.ai "Drafted answer completed."] }, [1, 2]) :=
  C2_retry_backoff _ _ "transient" "transient" "fine" rfl rfl rfl

/-- C3: when the search call raises, `research_agent` returns a state with an empty
research set and exactly one appended error log entry, preserving the query and the
drafted answer; the fault is not propagated, and for every drafting-client
behaviour the pipeline still runs the drafting stage and completes with some
result. -/
theorem C3_search_failure_local_recovery (e : String) (st : ResearchState) :
    research_agent (.error e) st =
      { query := st.query
        research_data := []
        drafted_answer := st.drafted_answer
        messages := st.messages ++ [.ai ("Error in research: " ++ e)] } ∧
    ∀ invoke : Nat → Except String String, ∃ r, pipeline (.error e) invoke st = some r := by
  refine ⟨rfl, fun invoke => ?_⟩
  exact Option.isSome_iff_exists.mp (draftLoop_total invoke _ max_retries 0 (by decide))

/-!  ## Claim about the markdown stripper example  -/

/-- C8: `strip_markdown` turns the input `**bold** and `code`` into exactly
`bold and code`: the code-span pass removes the backticks and the emphasis pass,
running afterwards, removes the double asterisks. -/
theorem C8_strip_markdown_example :
    strip_markdown "**bold** and `code`" = "bold and code" := by decide

/-!  ## Claims about the research stage  -/

/-- Every item of a successful extraction comes from a successful per-result
extraction. -/
theorem extractAll_ok_mem :
    ∀ (rs : List RawResult) (out : List ResearchItem), extractAll rs = .ok out →
      ∀ item ∈ out, ∃ r ∈ rs, extractItem r = .ok item := by
  intro rs
  induction rs with
  | nil =>
    intro out h item hm
    simp only [extractAll, Except.ok.injEq] at h
    subst h
    simp at hm
  | cons r rs ih =>
    intro out h item hm
    cases hr : extractItem r with
    | error e => simp [extractAll, hr] at h
    | ok it =>
      cases hall : extractAll rs with
      | error e => simp [extractAll, hr, hall] at h
      | ok items =>
        simp only [extractAll, hr, hall, Except.ok.injEq] at h
        subst h
        rcases List.mem_cons.mp hm with h | h
        · exact ⟨r, List.mem_cons_self r rs, h ▸ hr⟩
        · obtain ⟨r2, hr2, he2⟩ := ih items hall item h
          exact ⟨r2, List.mem_cons_of_mem r hr2, he2⟩

/-- If some result of the list fails to extract, the whole comprehension raises. -/
theorem extractAll_error_of_mem :
    ∀ (rs : List RawResult) (r : RawResult), r ∈ rs →
      (∃ e0, extractItem r = .error e0) → ∃ e, extractAll rs = .error e := by
  intro rs
  induction rs with
  | nil => intro r hr; simp at hr
  | cons r0 rs ih =>
    intro r hr hfail
    cases hr0 : extractItem r0 with
    | error e => exact ⟨e, by simp [extractAll, hr0]⟩
    | ok it =>
      rcases List.mem_cons.mp hr with rfl | hmem
      · obtain ⟨e0, he0⟩ := hfail
        rw [hr0] at he0
        exact absurd he0 (by simp)
      · obtain ⟨e, he⟩ := ih r hmem hfail
        exact ⟨e, by simp [extractAll, hr0, he]⟩

/-- A concrete pipeline state used by several witnesses. -/
def stDemo : ResearchState :=
  { query := "q", research_data := [], drafted_answer := "", messages := [] }

/-- C7 counterexample: the code copies `url` and `title` verbatim from the search
response, so a response item with an empty url yields a research item with an
empty url — the claim's unconditional non-emptiness fails. -/
theorem C7_counterexample :
    ((research_agent (.ok [⟨some "", some "t", some "c"⟩]) stDemo).research_data.any
      fun item => item.url.isEmpty) = true := by decide

/-- C7 (amended): for every search behaviour and every state, every produced
research item has content of length at most 1000 characters — unconditionally,
since the code always slices `result["content"][:1000]`; and whenever every
present url and title of the search response is non-empty, every produced item
also has non-empty url and title (the code copies both verbatim, with no
emptiness check of its own). -/
theorem C7_amended_research_items (search : Except String (List RawResult))
    (st : ResearchState) :
    (∀ item ∈ (research_agent search st).research_data, item.content.length ≤ 1000) ∧
    ((∀ rs, search = .ok rs → ∀ r ∈ rs,
        (∀ u, r.url = some u → u ≠ "") ∧ (∀ t, r.title = some t → t ≠ "")) →
      ∀ item ∈ (research_agent search st).research_data,
        item.url ≠ "" ∧ item.title ≠ "") := by
  have hsrc : ∀ item ∈ (research_agent search st).research_data,
      ∃ rs r, search = .ok rs ∧ r ∈ rs ∧ extractItem r = .ok item := by
    intro item hm
    cases search with
    | error e => simp [research_agent] at hm
    | ok rs =>
      cases hall : extractAll rs with
      | error e => simp [research_agent, hall] at hm
      | ok items =>
        simp only [research_agent, hall] at hm
        obtain ⟨r, hrmem, hex⟩ := extractAll_ok_mem rs items hall item hm
        exact ⟨rs, r, rfl, hrmem, hex⟩
  constructor
  · intro item hm
    obtain ⟨rs, r, -, -, hex⟩ := hsrc item hm
    cases hu : r.url with
    | none => simp [extractItem, hu] at hex
    | some u =>
      cases ht : r.title with
      | none => simp [extractItem, hu, ht] at hex
      | some t =>
        cases hc : r.content with
        | none => simp [extractItem, hu, ht, hc] at hex
        | some c =>
          simp only [extractItem, hu, ht, hc, Except.ok.injEq] at hex
          subst hex
          simp only [pySlice, String.length]
          simp [List.length_take]
  · intro h item hm
    obtain ⟨rs, r, hsearch, hrmem, hex⟩ := hsrc item hm
    cases hu : r.url with
    | none => simp [extractItem, hu] at hex
    | some u =>
      cases ht : r.title with
      | none => simp [extractItem, hu, ht] at hex
      | some t =>
        cases hc : r.content with
        | none => simp [extractItem, hu, ht, hc] at hex
        | some c =>
          simp only [extractItem, hu, ht, hc, Except.ok.injEq] at hex
          subst hex
          exact ⟨(h rs hsearch r hrmem).1 u hu, (h rs hsearch r hrmem).2 t ht⟩

/-- Witness for C7 (amended): the unconditional content bound and, for a
well-formed response, the non-empty url and title, both at a concrete input. -/
theorem C7_amended_research_items_witness :
    ({ url := "u", title := "t", content := "c", source := "web" } : ResearchItem).content.length ≤ 1000 ∧
    (({ url := "u", title := "t", content := "c", source := "web" } : ResearchItem).url ≠ "" ∧
     ({ url := "u", title := "t", content := "c", source := "web" } : ResearchItem).title ≠ "") :=
  ⟨(C7_amended_research_items (.ok [⟨some "u", some "t", some "c"⟩]) stDemo).1
      { url := "u", title := "t", content := "c", source := "web" } (by decide),
   (C7_amended_research_items (.ok [⟨some "u", some "t", some "c"⟩]) stDemo).2
      (by intro rs hrs r hr; simp at hrs; subst hrs; simp at hr; subst hr; simp)
      { url := "u", title := "t", content := "c", source := "web" } (by decide)⟩

/-- C10: result filtering is all-or-nothing — if the search succeeds but any single
result lacks a url, title or content value, the per-item exception aborts the whole
comprehension, the handler catches it, and `research_agent` returns an empty
research set (well-formed results of the same response are discarded too) with one
error log entry. -/
theorem C10_all_or_nothing (rs : List RawResult) (st : ResearchState) (r : RawResult)
    (hr : r ∈ rs) (hbad : r.url = none ∨ r.title = none ∨ r.content = none) :
    ∃ e, research_agent (.ok rs) st =
      { query := st.query
        research_data := []
        drafted_answer := st.drafted_answer
        messages := st.messages ++ [.ai ("Error in research: " ++ e)] } := by
  have hfail : ∃ e0, extractItem r = .error e0 := by
    cases hu : r.url with
    | none => exact ⟨"'url'", by simp [extractItem, hu]⟩
    | some u =>
      cases ht : r.title with
      | none => exact ⟨"'title'", by simp [extractItem, hu, ht]⟩
      | some t =>
        cases hc : r.content with
        | none => exact ⟨"'content'", by simp [extractItem, hu, ht, hc]⟩
        | some c => rcases hbad with h | h | h <;> simp_all
  obtain ⟨e, he⟩ := extractAll_error_of_mem rs r hr hfail
  exact ⟨e, by simp [research_agent, he]⟩

/-- Witness for C10: a response with one well-formed and one malformed result is
discarded entirely. -/
theorem C10_all_or_nothing_witness :
    ∃ e, research_agent
        (.ok [⟨some "u", some "t", some "c"⟩, ⟨some "u2", none, some "c2"⟩]) stDemo =
      { query := "q"
        research_data := []
        drafted_answer := ""
        messages := [.ai ("Error in research: " ++ e)] } :=
  C10_all_or_nothing _ stDemo ⟨some "u2", none, some "c2"⟩ (by decide)
    (Or.inr (Or.inl rfl))

/-!  ## Claims about `compact_citations`  -/

/-- Trace equation: no match at this position. -/
theorem compactScan_trace_none (fuel counter : Nat) (seen : List (List (List Char) × Nat))
    (c : Char) (cs : List Char) (hm : tryMatch (c :: cs) = none) :
    (compactScan (fuel + 1) counter seen (c :: cs)).2 =
      (compactScan fuel counter seen cs).2 := by
  simp [compactScan, hm]

/-- Trace equation: a marker whose URL tuple is already in `seen`. -/
theorem compactScan_trace_found (fuel counter : Nat) (seen : List (List (List Char) × Nat))
    (c : Char) (cs g rest : List Char) (i0 : Nat)
    (hm : tryMatch (c :: cs) = some (g, rest)) (hk : lookupKey (urlsOf g) seen = some i0) :
    (compactScan (fuel + 1) counter seen (c :: cs)).2 =
      (urlsOf g, i0) :: (compactScan fuel counter seen rest).2 := by
  simp [compactScan, hm, hk]

/-- Trace equation: a marker with a fresh URL tuple. -/
theorem compactScan_trace_new (fuel counter : Nat) (seen : List (List (List Char) × Nat))
    (c : Char) (cs g rest : List Char)
    (hm : tryMatch (c :: cs) = some (g, rest)) (hk : lookupKey (urlsOf g) seen = none) :
    (compactScan (fuel + 1) counter seen (c :: cs)).2 =
      (urlsOf g, counter + 1) ::
        (compactScan fuel (counter + 1) ((urlsOf g, counter + 1) :: seen) rest).2 := by
  simp [compactScan, hm, hk]

/-- Unfolding of the dict lookup on a cons cell. -/
theorem lookupKey_cons (k k2 : List (List Char)) (i : Nat)
    (seen : List (List (List Char) × Nat)) :
    lookupKey k ((k2, i) :: seen) = if k = k2 then some i else lookupKey k seen := rfl

/-- The index assignment of the compaction scan is a function of the URL tuple:
every trace entry agrees with the `seen` dict it started from, and two trace
entries with the same URL tuple carry the same index. -/
theorem compactScan_trace_ok :
    ∀ (fuel : Nat) (s : List Char) (counter : Nat) (seen : List (List (List Char) × Nat)),
      (∀ k i, (k, i) ∈ (compactScan fuel counter seen s).2 →
        ∀ j, lookupKey k seen = some j → i = j) ∧
      (∀ k i j, (k, i) ∈ (compactScan fuel counter seen s).2 →
        (k, j) ∈ (compactScan fuel counter seen s).2 → i = j) := by
  intro fuel
  induction fuel with
  | zero =>
    intro s counter seen
    constructor
    · intro k i hmem; simp [compactScan] at hmem
    · intro k i j hmem _; simp [compactScan] at hmem
  | succ n ih =>
    intro s counter seen
    cases s with
    | nil =>
      constructor
      · intro k i hmem; simp [compactScan] at hmem
      · intro k i j hmem _; simp [compactScan] at hmem
    | cons c cs =>
      cases hm : tryMatch (c :: cs) with
      | none =>
        have ht := compactScan_trace_none n counter seen c cs hm
        constructor
        · intro k i hmem j hlook
          rw [ht] at hmem
          exact (ih cs counter seen).1 k i hmem j hlook
        · intro k i j hi hj
          rw [ht] at hi hj
          exact (ih cs counter seen).2 k i j hi hj
      | some gr =>
        obtain ⟨g, rest⟩ := gr
        cases hk : lookupKey (urlsOf g) seen with
        | some i0 =>
          have ht := compactScan_trace_found n counter seen c cs g rest i0 hm hk
          constructor
          · intro k i hmem j hlook
            rw [ht] at hmem
            rcases List.mem_cons.mp hmem with heq | hmem2
            · obtain ⟨rfl, rfl⟩ := Prod.mk.inj heq
              rw [hk] at hlook
              exact (Option.some.inj hlook)
            · exact (ih rest counter seen).1 k i hmem2 j hlook
          · intro k i j hi hj
            rw [ht] at hi hj
            rcases List.mem_cons.mp hi with hie | hit <;>
              rcases List.mem_cons.mp hj with hje | hjt
            · obtain ⟨rfl, rfl⟩ := Prod.mk.inj hie
              obtain ⟨-, rfl⟩ := Prod.mk.inj hje
              rfl
            · obtain ⟨rfl, rfl⟩ := Prod.mk.inj hie
              exact ((ih rest counter seen).1 _ j hjt _ hk).symm
            · obtain ⟨rfl, rfl⟩ := Prod.mk.inj hje
              exact (ih rest counter seen).1 _ i hit _ hk
            · exact (ih rest counter seen).2 k i j hit hjt
        | none =>
          have ht := compactScan_trace_new n counter seen c cs g rest hm hk
          constructor
          · intro k i hmem j hlook
            rw [ht] at hmem
            rcases List.mem_cons.mp hmem with heq | hmem2
            · obtain ⟨rfl, rfl⟩ := Prod.mk.inj heq
              rw [hk] at hlook
              exact absurd hlook (by simp)
            · by_cases hkk : k = urlsOf g
              · subst hkk
                rw [hk] at hlook
                exact absurd hlook (by simp)
              · have hlook2 : lookupKey k ((urlsOf g, counter + 1) :: seen) = some j := by
                  rw [lookupKey_cons, if_neg hkk]; exact hlook
                exact (ih rest (counter + 1) ((urlsOf g, counter + 1) :: seen)).1
                  k i hmem2 j hlook2
          · intro k i j hi hj
            rw [ht] at hi hj
            have hself : lookupKey (urlsOf g) ((urlsOf g, counter + 1) :: seen) =
                some (counter + 1) := by
              rw [lookupKey_cons, if_pos rfl]
            rcases List.mem_cons.mp hi with hie | hit <;>
              rcases List.mem_cons.mp hj with hje | hjt
            · obtain ⟨rfl, rfl⟩ := Prod.mk.inj hie
              obtain ⟨-, rfl⟩ := Prod.mk.inj hje
              rfl
            · obtain ⟨rfl, rfl⟩ := Prod.mk.inj hie
              exact ((ih rest (counter + 1) ((urlsOf g, counter + 1) :: seen)).1
                _ j hjt (counter + 1) hself).symm
            · obtain ⟨rfl, rfl⟩ := Prod.mk.inj hje
              exact (ih rest (counter + 1) ((urlsOf g, counter + 1) :: seen)).1
                _ i hit (counter + 1) hself
            · exact (ih rest (counter + 1) ((urlsOf g, counter + 1) :: seen)).2 k i j hit hjt

/-- C5: two citation markers whose URL lists are equal after splitting on
semicolons or commas and trimming whitespace are assigned the same integer
index by `compact_citations` (the trace lists the per-marker assignments of
one pass, in marker order). -/
theorem C5_equal_url_lists_same_index (t : String) (k : List (List Char)) (i j : Nat)
    (hi : (k, i) ∈ citationTrace t) (hj : (k, j) ∈ citationTrace t) : i = j :=
  (compactScan_trace_ok t.data.length t.data 0 []).2 k i j hi hj

/-- Witness for C5: the markers with raw URL lists `a.com; b.com` and
`a.com, b.com` (different separators, same URLs) both receive index 1. -/
theorem C5_equal_url_lists_same_index_witness :
    citationTrace "[Source: a.com; b.com] [Source: a.com, b.com]" =
      [(["a.com".data, "b.com".data], 1), (["a.com".data, "b.com".data], 1)] ∧
    (1 : Nat) = 1 :=
  ⟨by decide,
   C5_equal_url_lists_same_index "[Source: a.com; b.com] [Source: a.com, b.com]"
     ["a.com".data, "b.com".data] 1 1 (by decide) (by decide)⟩

/-- A text with no position matching the citation pattern passes through the
compaction scan unchanged, with an empty assignment trace. -/
theorem compactScan_no_marker :
    ∀ (fuel counter : Nat) (seen : List (List (List Char) × Nat)) (s : List Char),
      hasMarker s = false → compactScan fuel counter seen s = (s, []) := by
  intro fuel
  induction fuel with
  | zero => intro counter seen s _; rfl
  | succ n ih =>
    intro counter seen s h
    cases s with
    | nil => rfl
    | cons c cs =>
      rw [hasMarker, Bool.or_eq_false_iff] at h
      have h1 : tryMatch (c :: cs) = none := Option.not_isSome_iff_eq_none.mp (by
        rw [h.1]; exact Bool.false_ne_true)
      simp only [compactScan, h1]
      rw [ih counter seen cs h.2]

/-- C4 counterexample: one compaction pass can leave a raw citation marker behind
(a marker whose URL text itself contains an opening bracket and `Source:` is
copied into the `href`/`title` attributes of the produced anchor, where it
re-matches the pattern together with the `[1]` label), so `compact_citations` is
not idempotent on this input. -/
theorem C4_counterexample :
    compact_citations (compact_citations "[Source: x[Source: y]") ≠
      compact_citations "[Source: x[Source: y]" := by decide

/-- C4 (amended): whenever the output of one compaction pass contains no
remaining raw citation marker — which holds unless some marker's URL text
itself re-creates the pattern — a second pass returns it unchanged, i.e.
`compact_citations` is idempotent there. -/
theorem C4_amended_idempotent_without_marker (t : String)
    (h : hasMarker (compact_citations t).data = false) :
    compact_citations (compact_citations t) = compact_citations t := by
  show (⟨(compactScan (compact_citations t).data.length 0 []
    (compact_citations t).data).1⟩ : String) = compact_citations t
  rw [compactScan_no_marker _ 0 [] _ h]

/-- Witness for C4 (amended): an ordinary text whose compacted output has no
remaining marker, on which compaction is idempotent. -/
theorem C4_amended_idempotent_without_marker_witness :
    hasMarker (compact_citations "see [Source: a.com] end").data = false ∧
    compact_citations (compact_citations "see [Source: a.com] end") =
      compact_citations "see [Source: a.com] end" :=
  ⟨by decide, C4_amended_idempotent_without_marker "see [Source: a.com] end" (by decide)⟩

/-!  ## Claims about the snippet clamp  -/

/-- A list not ending in whitespace is unchanged by `rstrip`. -/
theorem pyRstrip_eq_self (l : List Char)
    (h : ∀ c, l.getLast? = some c → pyIsSpace c = false) : pyRstrip l = l := by
  cases hr : l.reverse with
  | nil =>
    have : l = [] := by simpa using congrArg List.reverse hr
    simp [this, pyRstrip]
  | cons c cs =>
    have hlast : l.getLast? = some c := by
      rw [← List.head?_reverse, hr]; rfl
    have hc : pyIsSpace c = false := h c hlast
    have : pyRstrip l = (List.dropWhile pyIsSpace (c :: cs)).reverse := by
      rw [pyRstrip, hr]
    rw [this, List.dropWhile_cons_of_neg (by simp [hc]), ← hr, List.reverse_reverse]

/-- C6 (amended): for a 500-character input that is already markdown-stripped and
whitespace-collapsed, the displayed snippet is the first 450 characters with
trailing whitespace removed, followed by the ellipsis character; it is exactly the
450-character prefix plus the ellipsis whenever that prefix does not end in
whitespace (the `rstrip` of the source can otherwise shorten the content below
450 characters). -/
theorem C6_amended_snippet_truncation (s : String)
    (h1 : strip_markdown s = s) (h2 : collapseWs s.data = s.data)
    (hlen : s.data.length = 500) :
    displaySnippet s = ⟨pyRstrip (s.data.take 450) ++ "…".data⟩ ∧
    (∀ c, (s.data.take 450).getLast? = some c → pyIsSpace c = false →
      displaySnippet s = ⟨s.data.take 450 ++ "…".data⟩) := by
  have hd : (strip_markdown s).data = s.data := by rw [h1]
  have hmain : displaySnippet s = ⟨pyRstrip (s.data.take 450) ++ "…".data⟩ := by
    simp only [displaySnippet, hd, h2, SNIPPET_MAX_CHARS, hlen]
    norm_num
  refine ⟨hmain, fun c hc hcs => ?_⟩
  rw [hmain, pyRstrip_eq_self (s.data.take 450) fun c2 hc2 => ?_]
  rw [hc] at hc2
  cases hc2
  exact hcs

set_option maxRecDepth 100000 in
/-- Witness for C6 (amended) on a 500-character markdown-free input. -/
theorem C6_amended_snippet_truncation_witness :
    displaySnippet ⟨List.replicate 500 'a'⟩ =
      ⟨pyRstrip ((List.replicate 500 'a').take 450) ++ "…".data⟩ :=
  (C6_amended_snippet_truncation ⟨List.replicate 500 'a'⟩
    (by decide) (by decide) (by decide)).1

set_option maxRecDepth 100000 in
/-- C6 counterexample: a 500-character plain-text input whose 450th character is a
space is displayed as 449 characters plus the ellipsis (the source `rstrip`s the
cut prefix), not as exactly the first 450 characters plus the ellipsis. -/
theorem C6_counterexample :
    displaySnippet ⟨List.replicate 449 'a' ++ [' '] ++ List.replicate 50 'b'⟩ ≠
      ⟨(List.replicate 449 'a' ++ [' '] ++ List.replicate 50 'b').take 450 ++ "…".data⟩ ∧
    (displaySnippet ⟨List.replicate 449 'a' ++ [' '] ++ List.replicate 50 'b'⟩).length =
      450 := by
  constructor
  · decide
  · decide

/-!  ## Claim C9: horizontal-rule lines

The universal statement is about inputs built only from rule characters and
trailing whitespace, so the key fact is that a scanner pass leaves a string
unchanged when its matcher fails on every suffix; this holds pass by pass for
dash-and-whitespace strings until the horizontal-rule pass removes everything.
-/

/-- A `re.sub` scan leaves a string unchanged when the matcher fails at every
position; stated via a character invariant `P` preserved along the string. -/
theorem subScan_eq_self (M : List Char → Option (List Char × List Char))
    (P : Char → Prop)
    (hM : ∀ c cs, P c → (∀ x ∈ cs, P x) → M (c :: cs) = none) :
    ∀ fuel s, (∀ x ∈ s, P x) → subScan M fuel s = s := by
  intro fuel
  induction fuel with
  | zero => intro s _; rfl
  | succ n ih =>
    intro s hs
    cases s with
    | nil => rfl
    | cons c cs =>
      have hm := hM c cs (hs c (by simp)) (fun x hx => hs x (by simp [hx]))
      simp only [subScan, hm]
      rw [ih cs (fun x hx => hs x (by simp [hx]))]

/-- MULTILINE version of `subScan_eq_self`. -/
theorem subScanML_eq_self (M : List Char → Option (List Char × Bool × List Char))
    (P : Char → Prop)
    (hM : ∀ c cs, P c → (∀ x ∈ cs, P x) → M (c :: cs) = none) :
    ∀ fuel flag s, (∀ x ∈ s, P x) → subScanML M fuel flag s = s := by
  intro fuel
  induction fuel with
  | zero => intro flag s _; rfl
  | succ n ih =>
    intro flag s hs
    cases s with
    | nil => rfl
    | cons c cs =>
      have hm := hM c cs (hs c (by simp)) (fun x hx => hs x (by simp [hx]))
      have hif : (if flag then M (c :: cs) else none) = none := by
        cases flag <;> simp [hm]
      simp only [subScanML, hif]
      rw [ih _ cs (fun x hx => hs x (by simp [hx]))]

/-- The character invariant of a dash-style horizontal-rule line: a dash or a
whitespace character. -/
def DashWs (c : Char) : Prop := c = '-' ∨ pyIsSpace c = true

/-- Enumeration of the whitespace characters. -/
theorem pyIsSpace_char (c : Char) (h : pyIsSpace c = true) :
    c = ' ' ∨ c = '\t' ∨ c = '\n' ∨ c = '\r' ∨ c = '\x0b' ∨ c = '\x0c' := by
  simp only [pyIsSpace, Bool.or_eq_true, decide_eq_true_eq] at h
  tauto

/-- Enumeration of the dash-or-whitespace characters. -/
theorem DashWs_cases (c : Char) (h : DashWs c) :
    c = '-' ∨ c = ' ' ∨ c = '\t' ∨ c = '\n' ∨ c = '\r' ∨ c = '\x0b' ∨ c = '\x0c' := by
  rcases h with h | h
  · exact Or.inl h
  · exact Or.inr (pyIsSpace_char c h)

/-- The image pattern needs a leading exclamation mark. -/
theorem matchImage_none (c : Char) (cs : List Char) (hc : DashWs c)
    (_ : ∀ x ∈ cs, DashWs x) : matchImage (c :: cs) = none := by
  have hne : ¬(c = '!' ∧ cs.head? = some '[') := by
    rintro ⟨rfl, -⟩
    rcases DashWs_cases _ hc with h | h | h | h | h | h | h <;> exact absurd h (by decide)
  cases cs with
  | nil => rfl
  | cons c2 cs2 =>
    have h1 : ¬(c = '!' ∧ c2 = '[') := by
      rintro ⟨rfl, rfl⟩
      exact hne ⟨rfl, rfl⟩
    simp [matchImage, h1]

/-- The link pattern needs a leading opening bracket. -/
theorem matchLink_none (c : Char) (cs : List Char) (hc : DashWs c)
    (_ : ∀ x ∈ cs, DashWs x) : matchLink (c :: cs) = none := by
  have h1 : c ≠ '[' := by
    rcases DashWs_cases _ hc with h | h | h | h | h | h | h <;> simp [h]
  simp [matchLink, h1]

/-- The code-span pattern needs a leading backtick. -/
theorem matchCodeSpan_none (c : Char) (cs : List Char) (hc : DashWs c)
    (_ : ∀ x ∈ cs, DashWs x) : matchCodeSpan (c :: cs) = none := by
  have h1 : c ≠ '`' := by
    rcases DashWs_cases _ hc with h | h | h | h | h | h | h <;> simp [h]
  simp [matchCodeSpan, h1]

/-- The double-delimiter emphasis pattern needs a leading asterisk or
underscore. -/
theorem matchEmph2_none (c : Char) (cs : List Char) (hc : DashWs c)
    (_ : ∀ x ∈ cs, DashWs x) : matchEmph2 (c :: cs) = none := by
  have h1 : ('*' == c) = false := by
    rcases DashWs_cases _ hc with h | h | h | h | h | h | h <;> simp [h]
  have h2 : ('_' == c) = false := by
    rcases DashWs_cases _ hc with h | h | h | h | h | h | h <;> simp [h]
  simp [matchEmph2, List.isPrefixOf, h1, h2]

/-- The single-delimiter emphasis pattern needs a leading asterisk or
underscore. -/
theorem matchEmph1_none (c : Char) (cs : List Char) (hc : DashWs c)
    (_ : ∀ x ∈ cs, DashWs x) : matchEmph1 (c :: cs) = none := by
  have h1 : ('*' == c) = false := by
    rcases DashWs_cases _ hc with h | h | h | h | h | h | h <;> simp [h]
  have h2 : ('_' == c) = false := by
    rcases DashWs_cases _ hc with h | h | h | h | h | h | h <;> simp [h]
  simp [matchEmph1, List.isPrefixOf, h1, h2]

/-- Either the whole string is whitespace, or dropping leading whitespace
reaches a first non-whitespace character of the string. -/
theorem dropWhile_ws_shape (s : List Char) :
    s.dropWhile pyIsSpace = [] ∨
    ∃ c cs, s.dropWhile pyIsSpace = c :: cs ∧ pyIsSpace c = false ∧ c ∈ s := by
  induction s with
  | nil => exact Or.inl rfl
  | cons c cs ih =>
    by_cases h : pyIsSpace c
    · rw [List.dropWhile_cons_of_pos h]
      rcases ih with h1 | ⟨c2, cs2, h1, h2, h3⟩
      · exact Or.inl h1
      · exact Or.inr ⟨c2, cs2, h1, h2, List.mem_cons_of_mem c h3⟩
    · rw [List.dropWhile_cons_of_neg h]
      exact Or.inr ⟨c, cs, rfl, by simpa using h, List.mem_cons_self c cs⟩

/-- The heading pattern needs a hash sign after at most three whitespace
characters. -/
theorem matchHeading_none (c : Char) (cs : List Char) (hc : DashWs c)
    (hcs : ∀ x ∈ cs, DashWs x) : matchHeading (c :: cs) = none := by
  have hall : ∀ x ∈ c :: cs, DashWs x := by
    intro x hx
    rcases List.mem_cons.mp hx with rfl | hx
    · exact hc
    · exact hcs x hx
  by_cases hw : (List.takeWhile pyIsSpace (c :: cs)).length ≤ 3
  · rcases dropWhile_ws_shape (c :: cs) with h | ⟨c2, cs2, h1, h2, h3⟩
    · simp [matchHeading, hw, h]
    · have hne : c2 ≠ '#' := by
        rcases DashWs_cases _ (hall c2 h3) with h | h | h | h | h | h | h
        · rw [h]; decide
        all_goals (rw [h] at h2; exact absurd h2 (by decide))
      simp [matchHeading, hw, h1, hne]
  · simp [matchHeading, hw]

/-- The blockquote pattern needs a greater-than sign after at most three
whitespace characters. -/
theorem matchBlockquote_none (c : Char) (cs : List Char) (hc : DashWs c)
    (hcs : ∀ x ∈ cs, DashWs x) : matchBlockquote (c :: cs) = none := by
  have hall : ∀ x ∈ c :: cs, DashWs x := by
    intro x hx
    rcases List.mem_cons.mp hx with rfl | hx
    · exact hc
    · exact hcs x hx
  by_cases hw : (List.takeWhile pyIsSpace (c :: cs)).length ≤ 3
  · rcases dropWhile_ws_shape (c :: cs) with h | ⟨c2, cs2, h1, h2, h3⟩
    · simp [matchBlockquote, hw, h]
    · have hne : c2 ≠ '>' := by
        rcases DashWs_cases _ (hall c2 h3) with h | h | h | h | h | h | h
        · rw [h]; decide
        all_goals (rw [h] at h2; exact absurd h2 (by decide))
      simp [matchBlockquote, hw, h1, hne]
  · simp [matchBlockquote, hw]

/-- The list-item pattern fails on an all-whitespace string. -/
theorem matchListItem_ws (ws : List Char) (hws : ∀ x ∈ ws, pyIsSpace x = true) :
    matchListItem ws = none := by
  have h : ws.dropWhile pyIsSpace = [] := List.dropWhile_eq_nil_iff.mpr hws
  simp [matchListItem, h]

/-- The list-item pattern fails on a run of at least two dashes (the second dash
is where `\s+` would be required). -/
theorem matchListItem_dashes (k : Nat) (ws : List Char) (hk : 2 ≤ k) :
    matchListItem (List.replicate k '-' ++ ws) = none := by
  obtain ⟨m, rfl⟩ : ∃ m, k = m + 2 := ⟨k - 2, by omega⟩
  rw [List.replicate_succ, List.replicate_succ, List.cons_append, List.cons_append]
  have hdrop : List.dropWhile pyIsSpace
      ('-' :: '-' :: (List.replicate m '-' ++ ws)) =
      '-' :: '-' :: (List.replicate m '-' ++ ws) :=
    List.dropWhile_cons_of_neg (by decide)
  have htake : List.takeWhile pyIsSpace ('-' :: (List.replicate m '-' ++ ws)) = [] :=
    List.takeWhile_cons_of_neg (by decide)
  simp [matchListItem, hdrop, htake]

/-- Any scanner pass on the empty string returns the empty string. -/
theorem subScanML_nil (M : List Char → Option (List Char × Bool × List Char))
    (fuel : Nat) (flag : Bool) : subScanML M fuel flag [] = [] := by
  cases fuel <;> rfl

/-- The list-item pass leaves a dash run followed by trailing whitespace
unchanged: at the start of the line at least two dashes follow, so `\s+` fails
after the bullet candidate; past the first character the position is no longer
a line start while dashes remain, and a line start inside the trailing
whitespace sees an all-whitespace rest. -/
theorem subScanML_listItem_dashes :
    ∀ (fuel k : Nat) (flag : Bool) (ws : List Char),
      (∀ x ∈ ws, pyIsSpace x = true) → 1 ≤ k → (flag = true → 2 ≤ k) →
      subScanML matchListItem fuel flag (List.replicate k '-' ++ ws) =
        List.replicate k '-' ++ ws := by
  intro fuel
  induction fuel with
  | zero => intro k flag ws _ _ _; rfl
  | succ n ih =>
    intro k flag ws hws hk hflag
    obtain ⟨k1, rfl⟩ : ∃ k1, k = k1 + 1 := ⟨k - 1, by omega⟩
    rw [List.replicate_succ, List.cons_append]
    have hif : (if flag then matchListItem ('-' :: (List.replicate k1 '-' ++ ws)) else none)
        = none := by
      cases flag with
      | false => rfl
      | true =>
        rw [if_pos rfl, ← List.cons_append, ← List.replicate_succ]
        exact matchListItem_dashes (k1 + 1) ws (hflag rfl)
    simp only [subScanML, hif]
    have hdec : decide ('-' = '\n') = false := by decide
    rw [hdec]
    cases k1 with
    | zero =>
      simp only [List.replicate, List.nil_append]
      rw [subScanML_eq_self matchListItem (fun c => pyIsSpace c = true)
        (fun c cs hc hcs => matchListItem_ws (c :: cs) (by
          intro x hx
          rcases List.mem_cons.mp hx with rfl | hx
          · exact hc
          · exact hcs x hx)) n false ws hws]
    | succ k2 =>
      rw [ih (k2 + 1) false ws hws (by omega) (by simp)]

/-- A whitespace string contains no dash to start a rule run. -/
theorem takeWhile_dash_ws (ws : List Char) (hws : ∀ x ∈ ws, pyIsSpace x = true) :
    ws.takeWhile (fun c => c = '-') = [] := by
  cases ws with
  | nil => rfl
  | cons c cs =>
    have hne : ¬(c = '-') := by
      rcases pyIsSpace_char c (hws c (List.mem_cons_self c cs)) with h | h | h | h | h | h <;>
        simp [h]
    exact List.takeWhile_cons_of_neg (by simpa using hne)

/-- The dash run of a dash-rule line is the whole dash block. -/
theorem takeWhile_dash_repl (n : Nat) (ws : List Char)
    (hws : ∀ x ∈ ws, pyIsSpace x = true) :
    (List.replicate n '-' ++ ws).takeWhile (fun c => c = '-') = List.replicate n '-' := by
  induction n with
  | zero => simpa using takeWhile_dash_ws ws hws
  | succ m ih =>
    rw [List.replicate_succ, List.cons_append, List.takeWhile_cons_of_pos (by decide), ih,
      ← List.replicate_succ]

/-- An all-whitespace string is its own whitespace run. -/
theorem takeWhile_ws_all (ws : List Char) (hws : ∀ x ∈ ws, pyIsSpace x = true) :
    ws.takeWhile pyIsSpace = ws := by
  induction ws with
  | nil => rfl
  | cons c cs ih =>
    rw [List.takeWhile_cons_of_pos (hws c (List.mem_cons_self c cs))]
    rw [ih (fun x hx => hws x (List.mem_cons_of_mem c hx))]

/-- On a line of `n ≥ 3` dashes followed only by whitespace, the dash
alternative of the horizontal-rule pattern matches and consumes everything. -/
theorem matchHRuleWith_dash (n : Nat) (ws : List Char) (h3 : 3 ≤ n)
    (hws : ∀ x ∈ ws, pyIsSpace x = true) :
    matchHRuleWith '-' (List.replicate n '-' ++ ws) =
      some ([], endsWithNewline ws, []) := by
  have hdrop : (List.replicate n '-' ++ ws).drop n = ws := by
    have h := List.drop_left (List.replicate n '-') ws
    rwa [List.length_replicate] at h
  simp only [matchHRuleWith, takeWhile_dash_repl n ws hws, List.length_replicate]
  rw [if_neg (by omega), hdrop, takeWhile_ws_all ws hws, List.drop_length]
  simp

/-- The combined horizontal-rule matcher on a dash-rule line. -/
theorem matchHRule_dash (n : Nat) (ws : List Char) (h3 : 3 ≤ n)
    (hws : ∀ x ∈ ws, pyIsSpace x = true) :
    matchHRule (List.replicate n '-' ++ ws) = some ([], endsWithNewline ws, []) := by
  rw [matchHRule, matchHRuleWith_dash n ws h3 hws]

/-- The horizontal-rule pass removes a dash-rule line entirely. -/
theorem subScanML_hrule_dashes (n : Nat) (ws : List Char) (h3 : 3 ≤ n)
    (hws : ∀ x ∈ ws, pyIsSpace x = true) (fuel : Nat) (hfuel : 1 ≤ fuel) :
    subScanML matchHRule fuel true (List.replicate n '-' ++ ws) = [] := by
  obtain ⟨m, rfl⟩ : ∃ m, fuel = m + 1 := ⟨fuel - 1, by omega⟩
  obtain ⟨n1, rfl⟩ : ∃ n1, n = n1 + 1 := ⟨n - 1, by omega⟩
  have hm : matchHRule ('-' :: (List.replicate n1 '-' ++ ws)) =
      some ([], endsWithNewline ws, []) := by
    rw [← List.cons_append, ← List.replicate_succ]
    exact matchHRule_dash (n1 + 1) ws h3 hws
  rw [List.replicate_succ, List.cons_append]
  simp only [subScanML, if_pos, hm]
  exact subScanML_nil matchHRule m (endsWithNewline ws)

/-- C9 (amended): a dash-style horizontal rule — three or more dashes followed
only by trailing whitespace — is removed entirely by `strip_markdown`: every
earlier pass leaves the line unchanged and the horizontal-rule pass deletes it.
(The asterisk and underscore rule styles are instead consumed by the emphasis
passes, which run first; see the counterexample.) -/
theorem C9_amended_dash_rules (n : Nat) (ws : List Char) (h3 : 3 ≤ n)
    (hws : ∀ c ∈ ws, pyIsSpace c = true) :
    strip_markdown ⟨List.replicate n '-' ++ ws⟩ = "" := by
  have hall : ∀ x ∈ List.replicate n '-' ++ ws, DashWs x := by
    intro x hx
    rcases List.mem_append.mp hx with hx | hx
    · exact Or.inl (List.eq_of_mem_replicate hx)
    · exact Or.inr (hws x hx)
  have h1 : ∀ f, subScan matchImage f (List.replicate n '-' ++ ws) =
      List.replicate n '-' ++ ws :=
    fun f => subScan_eq_self matchImage DashWs matchImage_none f _ hall
  have h2 : ∀ f, subScan matchLink f (List.replicate n '-' ++ ws) =
      List.replicate n '-' ++ ws :=
    fun f => subScan_eq_self matchLink DashWs matchLink_none f _ hall
  have hh : ∀ f flag, subScanML matchHeading f flag (List.replicate n '-' ++ ws) =
      List.replicate n '-' ++ ws :=
    fun f flag => subScanML_eq_self matchHeading DashWs matchHeading_none f flag _ hall
  have hb : ∀ f flag, subScanML matchBlockquote f flag (List.replicate n '-' ++ ws) =
      List.replicate n '-' ++ ws :=
    fun f flag => subScanML_eq_self matchBlockquote DashWs matchBlockquote_none f flag _ hall
  have hli : ∀ f, subScanML matchListItem f true (List.replicate n '-' ++ ws) =
      List.replicate n '-' ++ ws :=
    fun f => subScanML_listItem_dashes f n true ws hws (by omega) (fun _ => by omega)
  have hcode : ∀ f, subScan matchCodeSpan f (List.replicate n '-' ++ ws) =
      List.replicate n '-' ++ ws :=
    fun f => subScan_eq_self matchCodeSpan DashWs matchCodeSpan_none f _ hall
  have he2 : ∀ f, subScan matchEmph2 f (List.replicate n '-' ++ ws) =
      List.replicate n '-' ++ ws :=
    fun f => subScan_eq_self matchEmph2 DashWs matchEmph2_none f _ hall
  have he1 : ∀ f, subScan matchEmph1 f (List.replicate n '-' ++ ws) =
      List.replicate n '-' ++ ws :=
    fun f => subScan_eq_self matchEmph1 DashWs matchEmph1_none f _ hall
  have hlen : 1 ≤ (List.replicate n '-' ++ ws).length := by
    rw [List.length_append, List.length_replicate]
    omega
  simp only [strip_markdown, h1, h2, hh, hb, hli, hcode, he2, he1]
  rw [subScanML_hrule_dashes n ws h3 hws _ hlen]

/-- Witness for C9 (amended): three dashes and a trailing space vanish. -/
theorem C9_amended_dash_rules_witness :
    strip_markdown ⟨List.replicate 3 '-' ++ [' ']⟩ = "" :=
  C9_amended_dash_rules 3 [' '] (by omega) (by decide)

/-- C9 counterexample: the asterisk-style horizontal rule `***` is not removed:
the single-delimiter emphasis pass (which runs before the horizontal-rule pass)
consumes the first two asterisks as an empty emphasis span, and the leftover
single asterisk is no longer a rule, so the output is `*`, not the empty
string. -/
theorem C9_counterexample :
    strip_markdown "***" ≠ "" ∧ strip_markdown "***" = "*" := by
  exact ⟨by decide, by decide⟩
